import Mathlib

/-!
# Verification of the flow_manager-backend execution core

Shallow embedding of the flow execution engine (`app/core/flow_engine.py`),
the condition evaluator (`app/core/condition_evaluator.py`), the task
capability wrapper (`app/tasks/base_task.py`), the flow data model and its
structural validation (`app/models/flow.py`), the execution records
(`app/models/execution.py`), the task registry (`app/core/task_registry.py`)
and the flow-creation decision of the API layer (`app/api/flows.py`).

Python dictionaries with a known set of optionally-present keys are embedded
as structures of `Option`-valued fields (`none` models an absent key); the
accumulated execution context is an insertion-ordered association list; the
database session is embedded as explicit state (the persisted
`FlowExecution` row, the list of persisted `TaskExecution` rows, and the
history of status values the `FlowExecution` row goes through).  Each
`db.session.commit()` consumes one tick of an explicit commit environment
that either succeeds or raises a message, which mirrors the only way a fault
can escape the orchestration loop in the source; `noFault` is the reliable
store assumed everywhere the spec describes normal operation.  The Python
`while` loop is embedded with a fuel parameter; running out of fuel is a
model artifact corresponding to a run that has not yet terminated.
-/

set_option maxHeartbeats 1000000

namespace FlowManager

/-- Execution status values, mirroring `ExecutionStatus` in
`app/models/execution.py`. -/
inductive ExecStatus
  | pending
  | running
  | success
  | failure
  | completed
  deriving DecidableEq, Repr

/-- A task result dictionary as read by the engine: the `status`, `data` and
`error` keys, each possibly absent. -/
structure TaskResult where
  status : Option String
  data : Option String
  error : Option String
  deriving DecidableEq, Repr

/-- The mutable execution context: an insertion-ordered dictionary from task
names to task results (`context[task_name] = result` in the engine). -/
abbrev Context := List (String × TaskResult)

/-- Python dict update `context[k] = v`: overwrite in place when the key is
present, otherwise append at the end (insertion order preserved). -/
def ctxSet (ctx : Context) (k : String) (v : TaskResult) : Context :=
  if ctx.any (fun p => p.1 == k) then
    ctx.map (fun p => if p.1 == k then (k, v) else p)
  else ctx ++ [(k, v)]

/-- A condition dictionary from a flow definition
(`source_task` / `outcome` / `target_task_success` / `target_task_failure`,
each possibly absent). -/
structure Condition where
  source_task : Option String
  outcome : Option String
  target_task_success : Option String
  target_task_failure : Option String
  deriving DecidableEq, Repr

/-- A task dictionary from a flow definition (`name` / `description`). -/
structure TaskDef where
  name : Option String
  description : Option String
  deriving DecidableEq, Repr

/-- The JSON `definition` column of a flow: the `tasks` and `conditions`
keys, each possibly absent. -/
structure FlowDef where
  tasks : Option (List TaskDef)
  conditions : Option (List Condition)
  deriving DecidableEq, Repr

/-- The `Flow` model (`app/models/flow.py`): id, start task and the stored
definition (`none` models a missing/falsy definition). -/
structure Flow where
  id : String
  start_task : String
  definition : Option FlowDef
  deriving DecidableEq, Repr

/-- `Flow.get_task_by_name`: first task dictionary whose `name` equals the
given name, `None` when the definition or the `tasks` key is absent. -/
def Flow.get_task_by_name (f : Flow) (task_name : String) : Option TaskDef :=
  match f.definition with
  | none => none
  | some d =>
    match d.tasks with
    | none => none
    | some ts => ts.find? (fun t => t.name == some task_name)

/-- The condition list stored in the flow definition (empty when the
definition or the `conditions` key is absent). -/
def Flow.conditions_list (f : Flow) : List Condition :=
  match f.definition with
  | none => []
  | some d => d.conditions.getD []

/-- `Flow.get_conditions_for_task`: all conditions whose `source_task`
equals the given task name, in declaration order. -/
def Flow.get_conditions_for_task (f : Flow) (task_name : String) : List Condition :=
  f.conditions_list.filter (fun c => c.source_task == some task_name)

/-- Python truthiness filter used on task names: an absent or empty name is
dropped. -/
def truthyStr : Option String → Option String
  | some s => if s = "" then none else some s
  | none => none

/-- `Flow.get_all_task_names`: names of all tasks, skipping tasks whose
`name` is absent or falsy (empty). -/
def Flow.get_all_task_names (f : Flow) : List String :=
  match f.definition with
  | none => []
  | some d => (d.tasks.getD []).filterMap (fun t => truthyStr t.name)

/-- Structural errors contributed by one condition in
`Flow.validate_flow_structure`: a truthy `source_task` must be an existing
task name; truthy targets must be `end` or an existing task name.  Falsy
(absent or empty) fields are skipped, as in the source. -/
def cond_struct_errors (task_names : List String) (c : Condition) : List String :=
  (match c.source_task with
   | some s =>
     if s ≠ "" ∧ s ∉ task_names then
       ["condition source_task " ++ s ++ " not found in tasks"]
     else []
   | none => []) ++
  (match c.target_task_success with
   | some s =>
     if s ≠ "" ∧ s ≠ "end" ∧ s ∉ task_names then
       ["condition target_task_success " ++ s ++ " not found in tasks"]
     else []
   | none => []) ++
  (match c.target_task_failure with
   | some s =>
     if s ≠ "" ∧ s ≠ "end" ∧ s ∉ task_names then
       ["condition target_task_failure " ++ s ++ " not found in tasks"]
     else []
   | none => [])

/-- Structural errors contributed by a whole condition list. -/
def conds_struct_errors (task_names : List String) : List Condition → List String
  | [] => []
  | c :: rest => cond_struct_errors task_names c ++ conds_struct_errors task_names rest

/-- `Flow.validate_flow_structure`: missing definition and missing/empty
task list short-circuit; otherwise the start-task, duplicate-name and
per-condition checks accumulate errors, and the flow is valid exactly when
no error accumulated. -/
def Flow.validate_flow_structure (f : Flow) : Bool × List String :=
  match f.definition with
  | none => (false, ["Flow definition is missing"])
  | some d =>
    match d.tasks with
    | none => (false, ["Flow must contain at least one task"])
    | some tasks =>
      if tasks.isEmpty then (false, ["Flow must contain at least one task"])
      else
        let task_names := f.get_all_task_names
        let errors :=
          (if f.start_task ∈ task_names then []
           else ["Start task " ++ f.start_task ++ " not found in tasks list"]) ++
          (if task_names.Nodup then []
           else ["Duplicate task names found in flow definition"]) ++
          (match d.conditions with
           | none => []
           | some conds => conds_struct_errors task_names conds)
        (errors.isEmpty, errors)

namespace ConditionEvaluator

/-- `ConditionEvaluator._outcome_matches`: `any` matches everything,
otherwise expected and actual must be equal. -/
def outcome_matches (expected actual : String) : Bool :=
  if expected = "any" then true else expected == actual

/-- `ConditionEvaluator.evaluate`: compare the condition outcome (default
`success`) with the result status (default `failure`); on a match return
`target_task_success`, otherwise `target_task_failure` (default `end`). -/
def evaluate (condition : Condition) (task_result : TaskResult) : String :=
  let expected := condition.outcome.getD "success"
  let actual := task_result.status.getD "failure"
  if outcome_matches expected actual then condition.target_task_success.getD "end"
  else condition.target_task_failure.getD "end"

/-- `ConditionEvaluator.find_condition_for_task`: first condition in
declaration order whose `source_task` equals the task name. -/
def find_condition_for_task (task_name : String) : List Condition → Option Condition
  | [] => none
  | c :: rest =>
    if c.source_task == some task_name then some c
    else find_condition_for_task task_name rest

end ConditionEvaluator

/-- Behavior of a task capability body (`execute` in `BaseTask`): either
return a result dictionary or raise a fault carrying a message. -/
inductive ExecBehavior
  | ret (r : TaskResult)
  | raised (msg : String)

/-- A task capability (`BaseTask`): name, description and the `execute`
body. -/
structure Capability where
  name : String
  description : String
  execute : Context → ExecBehavior

/-- `BaseTask.run`: the wrapper around `execute` — a raised fault becomes a
`failure` result carrying the message, and a returned result missing its
`status` key gets status `success`. -/
def Capability.run (t : Capability) (ctx : Context) : TaskResult :=
  match t.execute ctx with
  | .raised msg => { status := some "failure", data := none, error := some msg }
  | .ret r => if r.status.isNone then { r with status := some "success" } else r

/-- The task registry contents: a name-keyed mapping of capabilities
(`TaskRegistry._tasks`). -/
abbrev Registry := List (String × Capability)

/-- `TaskRegistry.get_task`: dictionary lookup, `None` when absent. -/
def Registry.get_task (reg : Registry) (task_name : String) : Option Capability :=
  (reg.find? (fun p => p.1 == task_name)).map (fun p => p.2)

/-- `TaskRegistry.task_exists`: key membership. -/
def Registry.task_exists (reg : Registry) (task_name : String) : Bool :=
  reg.any (fun p => p.1 == task_name)

/-- Registry errors of `FlowEngine.validate_flow_executable`: one error per
flow task name missing from the registry. -/
def registry_missing_errors (reg : Registry) : List String → List String
  | [] => []
  | n :: rest =>
    (if reg.task_exists n then [] else ["Task " ++ n ++ " not found in task registry"]) ++
    registry_missing_errors reg rest

/-- `FlowEngine.validate_flow_executable`: structural errors (when the
structure is invalid) plus registry-membership errors; executable exactly
when no error accumulated. -/
def validate_flow_executable (reg : Registry) (flow : Flow) : Bool × List String :=
  let sv := flow.validate_flow_structure
  let errors := (if sv.1 then [] else sv.2) ++ registry_missing_errors reg flow.get_all_task_names
  (errors.isEmpty, errors)

/-- Outcome of the flow-creation endpoint (`create_flow` in
`app/api/flows.py`) for a schema-loaded flow: id conflict, validation
rejection, or persisted. -/
inductive CreateOutcome
  | conflict
  | invalid (errors : List String)
  | persisted
  deriving DecidableEq, Repr

/-- The decision logic of `create_flow`: reject on duplicate id, then
persist only when `validate_flow_executable` succeeds. -/
def create_flow (existing_ids : List String) (reg : Registry) (flow : Flow) : CreateOutcome :=
  if flow.id ∈ existing_ids then .conflict
  else
    let v := validate_flow_executable reg flow
    if v.1 then .persisted else .invalid v.2

/-- A persisted `TaskExecution` row (`app/models/execution.py`); timestamps
are embedded as the boolean `completed_at_set` recording whether
`completed_at` has been written. -/
structure TaskExecRec where
  task_name : String
  task_description : Option String
  sequence_number : Nat
  status : ExecStatus
  input_data : Context
  output_data : Option String
  error_message : Option String
  error_traceback : Option String
  completed_at_set : Bool
  deriving DecidableEq, Repr

/-- A persisted `FlowExecution` row; `completed_at_set` records whether
`completed_at` has been written. -/
structure FlowExecutionRec where
  flow_id : String
  status : ExecStatus
  input_context : Context
  output_data : Option Context
  error_message : Option String
  error_task : Option String
  total_tasks_executed : Nat
  completed_at_set : Bool
  deriving DecidableEq, Repr

/-- The engine-visible store state: the commit tick counter, the
`FlowExecution` row being driven, its `TaskExecution` rows in creation
order, and the history of status values the `FlowExecution` row has taken
(used to express the status-transition discipline). -/
structure EngineState where
  tick : Nat
  fe : FlowExecutionRec
  task_recs : List TaskExecRec
  trace : List ExecStatus
  deriving DecidableEq, Repr

deriving instance DecidableEq for Except

/-- Commit environment: the n-th `db.session.commit()` call either succeeds
(`none`) or raises the given message. -/
abbrev Env := Nat → Option String

/-- One `db.session.commit()`: consume a tick; fail with the environment's
message when the environment faults at this tick. -/
def commit (env : Env) (st : EngineState) : Except String Unit × EngineState :=
  match env st.tick with
  | none => (.ok (), { st with tick := st.tick + 1 })
  | some msg => (.error msg, { st with tick := st.tick + 1 })

/-- The always-reliable store (normal operation). -/
def noFault : Env := fun _ => none

/-- `FlowExecution.mark_running`. -/
def feMarkRunning (st : EngineState) : EngineState :=
  { st with fe := { st.fe with status := .running }, trace := st.trace ++ [.running] }

/-- `FlowExecution.mark_completed`: terminal success, records the output
data and sets `completed_at`. -/
def feMarkCompleted (st : EngineState) (output : Context) : EngineState :=
  { st with
    fe := { st.fe with
              status := .completed
              completed_at_set := true
              output_data := some output },
    trace := st.trace ++ [.completed] }

/-- `FlowExecution.mark_failed`: terminal failure, records the error
message and the offending task (when attributed) and sets `completed_at`. -/
def feMarkFailed (st : EngineState) (msg : String) (err_task : Option String) : EngineState :=
  { st with
    fe := { st.fe with
              status := .failure
              completed_at_set := true
              error_message := some msg
              error_task := err_task },
    trace := st.trace ++ [.failure] }

/-- `flow_execution.total_tasks_executed = sequence_number`. -/
def feSetTotal (st : EngineState) (n : Nat) : EngineState :=
  { st with fe := { st.fe with total_tasks_executed := n } }

/-- Update the last element of a list, mirroring mutation of the most
recently added `TaskExecution` row. -/
def updateLast {α : Type} : List α → (α → α) → List α
  | [], _ => []
  | [a], f => [f a]
  | a :: b :: rest, f => a :: updateLast (b :: rest) f

/-- `db.session.add(task_execution)`. -/
def addTaskRec (st : EngineState) (r : TaskExecRec) : EngineState :=
  { st with task_recs := st.task_recs ++ [r] }

/-- Mutate the `TaskExecution` row created by the current step. -/
def updLastRec (st : EngineState) (f : TaskExecRec → TaskExecRec) : EngineState :=
  { st with task_recs := updateLast st.task_recs f }

/-- `TaskExecution.mark_running`. -/
def teMarkRunning (r : TaskExecRec) : TaskExecRec :=
  { r with status := .running }

/-- `TaskExecution.mark_success`. -/
def teMarkSuccess (d : Option String) (r : TaskExecRec) : TaskExecRec :=
  { r with status := .success, completed_at_set := true, output_data := d }

/-- `TaskExecution.mark_failure`. -/
def teMarkFailure (msg : String) (tb : Option String) (r : TaskExecRec) : TaskExecRec :=
  { r with
      status := .failure
      completed_at_set := true
      error_message := some msg
      error_traceback := tb }

/-- Failure result returned when the task is absent from the flow
definition. -/
def taskNotFoundResult (task_name : String) : TaskResult :=
  { status := some "failure", data := none,
    error := some ("Task " ++ task_name ++ " not found in flow definition") }

/-- Failure result returned when the task is absent from the registry. -/
def registryNotFoundResult (task_name : String) : TaskResult :=
  { status := some "failure", data := none,
    error := some ("Task " ++ task_name ++ " not found in task registry") }

/-- A freshly created `TaskExecution` row (pending, input snapshot of the
current context). -/
def newTaskRec (task_name : String) (seq : Nat) (td : TaskDef) (ctx : Context) : TaskExecRec :=
  { task_name := task_name, task_description := td.description,
    sequence_number := seq, status := .pending, input_data := ctx,
    output_data := none, error_message := none, error_traceback := none,
    completed_at_set := false }

/-- `FlowEngine._execute_task`: resolve the task definition and the
capability (returning a failure result with no row on either miss), create
and persist the row, mark it running, run the wrapped capability, write the
result into the context, finalize the row from the result status, and
return the result.  Store faults before the inner `try` propagate; store
faults inside it are caught, recorded as a row failure, and turned into a
failure result (its own recovery commit may still propagate). -/
def execute_task (env : Env) (reg : Registry) (flow : Flow) (task_name : String)
    (ctx : Context) (seq : Nat) (st : EngineState) :
    Except String (TaskResult × Context) × EngineState :=
  match flow.get_task_by_name task_name with
  | none => (.ok (taskNotFoundResult task_name, ctx), st)
  | some td =>
    match reg.get_task task_name with
    | none => (.ok (registryNotFoundResult task_name, ctx), st)
    | some task =>
      let st := addTaskRec st (newTaskRec task_name seq td ctx)
      match commit env st with
      | (.error msg, st) => (.error msg, st)
      | (.ok _, st) =>
        let st := updLastRec st teMarkRunning
        match commit env st with
        | (.error msg, st) =>
          let st := updLastRec st (teMarkFailure msg (some msg))
          match commit env st with
          | (.error m2, st) => (.error m2, st)
          | (.ok _, st) =>
            (.ok ({ status := some "failure", data := none, error := some msg }, ctx), st)
        | (.ok _, st) =>
          let result := task.run ctx
          let ctx := ctxSet ctx task_name result
          let st :=
            if result.status = some "success" then
              updLastRec st (teMarkSuccess result.data)
            else
              updLastRec st
                (teMarkFailure (result.error.getD "Task failed without error message") none)
          match commit env st with
          | (.error msg, st) =>
            let st := updLastRec st (teMarkFailure msg (some msg))
            match commit env st with
            | (.error m2, st) => (.error m2, st)
            | (.ok _, st) =>
              (.ok ({ status := some "failure", data := none, error := some msg }, ctx), st)
          | (.ok _, st) => (.ok (result, ctx), st)

/-- How the orchestration loop ended: normally, or (model artifact) by
running out of fuel while the source loop would still be iterating. -/
inductive LoopExit
  | finished
  | fuelOut
  deriving DecidableEq, Repr

/-- The `while current_task_name != 'end'` loop of
`FlowEngine.execute_flow`: execute the current task, persist the task
counter, and route via the first condition whose source is the current task
(finalizing immediately when there is none, or when the evaluator answers
`end`), then continue with the next task and the next sequence number. -/
def execute_flow_loop (env : Env) (reg : Registry) (flow : Flow) :
    Nat → String → Nat → Context → EngineState → Except String LoopExit × EngineState
  | 0, _, _, _, st => (.ok .fuelOut, st)
  | fuel + 1, current, seq, ctx, st =>
    if current = "end" then (.ok .finished, st)
    else
      match execute_task env reg flow current ctx seq st with
      | (.error msg, st) => (.error msg, st)
      | (.ok (task_result, ctx), st) =>
        let st := feSetTotal st seq
        match commit env st with
        | (.error msg, st) => (.error msg, st)
        | (.ok _, st) =>
          match (flow.get_conditions_for_task current).head? with
          | none =>
            let st :=
              if task_result.status = some "failure" then
                feMarkFailed st (task_result.error.getD "Task failed") (some current)
              else feMarkCompleted st ctx
            match commit env st with
            | (.error msg, st) => (.error msg, st)
            | (.ok _, st) => (.ok .finished, st)
          | some condition =>
            let next := ConditionEvaluator.evaluate condition task_result
            if next = "end" then
              let st :=
                if task_result.status = some "failure" then
                  feMarkFailed st (task_result.error.getD "Flow ended due to task failure")
                    (some current)
                else feMarkCompleted st ctx
              match commit env st with
              | (.error msg, st) => (.error msg, st)
              | (.ok _, st) => (.ok .finished, st)
            else execute_flow_loop env reg flow fuel next (seq + 1) ctx st

/-- The freshly created `FlowExecution` row (`FlowExecution.__init__`). -/
def initFlowExecution (flow : Flow) (input_context : Option Context) : FlowExecutionRec :=
  { flow_id := flow.id, status := .pending, input_context := input_context.getD [],
    output_data := none, error_message := none, error_task := none,
    total_tasks_executed := 0, completed_at_set := false }

/-- Store state right after creating the `FlowExecution` row, before its
first commit. -/
def initState (flow : Flow) (input_context : Option Context) : EngineState :=
  { tick := 0, fe := initFlowExecution flow input_context, task_recs := [],
    trace := [.pending] }

/-- The `try` block of `FlowEngine.execute_flow`: mark running, persist,
then run the loop from the start task with sequence number 1 on a copy of
the input context. -/
def execute_flow_try (env : Env) (reg : Registry) (flow : Flow)
    (input_context : Option Context) (fuel : Nat) (st : EngineState) :
    Except String LoopExit × EngineState :=
  let st := feMarkRunning st
  match commit env st with
  | (.error msg, st) => (.error msg, st)
  | (.ok _, st) =>
    execute_flow_loop env reg flow fuel flow.start_task 1 (input_context.getD []) st

/-- `FlowEngine.execute_flow`: create and persist the `FlowExecution` row
(a store fault here precedes the `try` and propagates), run the `try`
block, and on a fault escaping it mark the execution failed with the
fault's message and no task attribution and persist (that recovery commit's
own fault propagates). -/
def execute_flow (env : Env) (reg : Registry) (flow : Flow)
    (input_context : Option Context) (fuel : Nat) :
    Except String LoopExit × EngineState :=
  match commit env (initState flow input_context) with
  | (.error msg, st) => (.error msg, st)
  | (.ok _, st) =>
    match execute_flow_try env reg flow input_context fuel st with
    | (.ok ex, st) => (.ok ex, st)
    | (.error msg, st) =>
      let st := feMarkFailed st msg none
      match commit env st with
      | (.error m2, st) => (.error m2, st)
      | (.ok _, st) => (.ok .finished, st)

/-- `execute_flow` against the reliable store: normal operation. -/
def execute_flow_nf (reg : Registry) (flow : Flow) (input_context : Option Context)
    (fuel : Nat) : Except String LoopExit × EngineState :=
  execute_flow noFault reg flow input_context fuel

/-- Advance the commit tick: the state change of a successful commit. -/
def advTick (st : EngineState) : EngineState :=
  { st with tick := st.tick + 1 }

/-- The fully finalized `TaskExecution` row a successful pass through
`_execute_task` leaves behind for a resolved task, as a function of the
wrapped run's result. -/
def finishedTaskRec (task_name : String) (seq : Nat) (td : TaskDef) (ctx : Context)
    (r : TaskResult) : TaskExecRec :=
  if r.status = some "success" then
    { task_name := task_name, task_description := td.description,
      sequence_number := seq, status := .success, input_data := ctx,
      output_data := r.data, error_message := none, error_traceback := none,
      completed_at_set := true }
  else
    { task_name := task_name, task_description := td.description,
      sequence_number := seq, status := .failure, input_data := ctx,
      output_data := none,
      error_message := some (r.error.getD "Task failed without error message"),
      error_traceback := none, completed_at_set := true }

/-- The list `[1, 2, ..., n]` of expected sequence numbers. -/
def seqList : Nat → List Nat
  | 0 => []
  | n + 1 => seqList n ++ [n + 1]

/-- A condition whose routing fields are all present and non-empty, the
shape `ConditionSchema` guarantees for every condition accepted by the
flow-creation endpoint. -/
def conditionFieldsPresent (c : Condition) : Prop :=
  (∃ s, c.source_task = some s ∧ s ≠ "") ∧
  (∃ s, c.target_task_success = some s ∧ s ≠ "") ∧
  (∃ s, c.target_task_failure = some s ∧ s ≠ "")

/-! Concrete capabilities, registries, flows and commit environments used to
instantiate the theorems below on closed inputs. -/

/-- A capability that always succeeds with output `out`. -/
def wCapOk (n : String) : Capability :=
  { name := n, description := "ok task",
    execute := fun _ => .ret { status := some "success", data := some "out", error := none } }

/-- A capability that always reports failure `err1`. -/
def wCapFail (n : String) : Capability :=
  { name := n, description := "failing task",
    execute := fun _ => .ret { status := some "failure", data := none, error := some "err1" } }

/-- A capability whose body raises a fault. -/
def wCapRaise : Capability :=
  { name := "r", description := "raising task", execute := fun _ => .raised "kaput" }

/-- A capability whose body returns a result with no `status` key. -/
def wCapNoStatus : Capability :=
  { name := "s", description := "statusless task",
    execute := fun _ => .ret { status := none, data := some "d", error := none } }

/-- Registry holding succeeding tasks `a` and `b`. -/
def wRegAB : Registry := [("a", wCapOk "a"), ("b", wCapOk "b")]

/-- Registry where task `a` fails and `b` succeeds. -/
def wRegFail : Registry := [("a", wCapFail "a"), ("b", wCapOk "b")]

/-- Example flow: tasks `a`, `b`; one condition routing `a` on success to
`b` and on failure to `end`. -/
def wFlowA : Flow :=
  { id := "f1", start_task := "a",
    definition := some
      { tasks := some [{ name := some "a", description := some "ta" },
                       { name := some "b", description := none }],
        conditions := some [{ source_task := some "a", outcome := some "success",
                              target_task_success := some "b",
                              target_task_failure := some "end" }] } }

/-- A flow with a single task and no conditions. -/
def wFlowNoCond : Flow :=
  { id := "f2", start_task := "a",
    definition := some
      { tasks := some [{ name := some "a", description := none }],
        conditions := some [] } }

/-- A flow whose start task is the sentinel `end`. -/
def wFlowEnd : Flow :=
  { id := "f3", start_task := "end",
    definition := some
      { tasks := some [{ name := some "x", description := none }],
        conditions := none } }

/-- A flow whose start task is absent from its task list. -/
def wFlowBadStart : Flow :=
  { id := "f4", start_task := "z",
    definition := some
      { tasks := some [{ name := some "a", description := none }],
        conditions := some [] } }

/-- A structurally vacuous condition: every field absent.  It passes
structural validation untouched because every check is guarded by Python
truthiness. -/
def wFlowVacCond : Flow :=
  { id := "f5", start_task := "a",
    definition := some
      { tasks := some [{ name := some "a", description := none }],
        conditions := some [{ source_task := none, outcome := none,
                              target_task_success := none,
                              target_task_failure := none }] } }

/-- A flow that passes the executability check yet drives the engine into a
gapped sequence: the first condition routes `a` to the empty-string name
(skipped by validation as falsy), whose lookup fails and writes no row, and
the second condition routes the empty-string step onward to `b`. -/
def wFlowGap : Flow :=
  { id := "g", start_task := "a",
    definition := some
      { tasks := some [{ name := some "a", description := none },
                       { name := some "b", description := none }],
        conditions := some
          [{ source_task := some "a", outcome := some "any",
             target_task_success := some "", target_task_failure := some "" },
           { source_task := some "", outcome := some "any",
             target_task_success := some "b", target_task_failure := some "b" }] } }

/-- Two conditions sharing source `a`: the first routes success to `b`,
the second (ignored by the engine) routes everything to `end`. -/
def wFlowDup : Flow :=
  { id := "d1", start_task := "a",
    definition := some
      { tasks := some [{ name := some "a", description := some "ta" },
                       { name := some "b", description := none }],
        conditions := some
          [{ source_task := some "a", outcome := some "success",
             target_task_success := some "b", target_task_failure := some "end" },
           { source_task := some "a", outcome := some "any",
             target_task_success := some "end", target_task_failure := some "end" }] } }

/-- `wFlowDup` with the duplicate-source condition dropped. -/
def wFlowDupTrunc : Flow :=
  { id := "d1", start_task := "a",
    definition := some
      { tasks := some [{ name := some "a", description := some "ta" },
                       { name := some "b", description := none }],
        conditions := some
          [{ source_task := some "a", outcome := some "success",
             target_task_success := some "b", target_task_failure := some "end" }] } }

/-- A store that faults at the second commit (the `mark_running` commit
inside the `try` block) with message `boom`, and is reliable elsewhere. -/
def wEnvBoom : Env := fun n => if n = 1 then some "boom" else none

/-! ## Basic lemmas about the store and the task step -/

theorem commit_ok (env : Env) (st : EngineState) (h : env st.tick = none) :
    commit env st = (.ok (), advTick st) := by
  unfold commit advTick
  rw [h]

theorem commit_noFault (st : EngineState) :
    commit noFault st = (.ok (), advTick st) := rfl

theorem updateLast_append {α : Type} (l : List α) (a : α) (f : α → α) :
    updateLast (l ++ [a]) f = l ++ [f a] := by
  induction l with
  | nil => rfl
  | cons x xs ih =>
    cases xs with
    | nil => rfl
    | cons y ys =>
      show x :: updateLast ((y :: ys) ++ [a]) f = x :: ((y :: ys) ++ [f a])
      rw [ih]

theorem execute_task_no_taskdef (env : Env) (reg : Registry) (flow : Flow)
    (task_name : String) (ctx : Context) (seq : Nat) (st : EngineState)
    (h : flow.get_task_by_name task_name = none) :
    execute_task env reg flow task_name ctx seq st =
      (.ok (taskNotFoundResult task_name, ctx), st) := by
  unfold execute_task
  rw [h]

theorem execute_task_no_capability (env : Env) (reg : Registry) (flow : Flow)
    (task_name : String) (ctx : Context) (seq : Nat) (st : EngineState) (td : TaskDef)
    (h : flow.get_task_by_name task_name = some td) (h2 : reg.get_task task_name = none) :
    execute_task env reg flow task_name ctx seq st =
      (.ok (registryNotFoundResult task_name, ctx), st) := by
  unfold execute_task
  rw [h, h2]

theorem execute_task_nf_resolved (reg : Registry) (flow : Flow) (task_name : String)
    (ctx : Context) (seq : Nat) (st : EngineState) (td : TaskDef) (task : Capability)
    (h : flow.get_task_by_name task_name = some td) (h2 : reg.get_task task_name = some task) :
    execute_task noFault reg flow task_name ctx seq st =
      (.ok (task.run ctx, ctxSet ctx task_name (task.run ctx)),
       { st with
           tick := st.tick + 3,
           task_recs :=
             st.task_recs ++ [finishedTaskRec task_name seq td ctx (task.run ctx)] }) := by
  unfold execute_task
  rw [h, h2]
  simp only [commit, noFault, addTaskRec, updLastRec, advTick]
  by_cases hs : (task.run ctx).status = some "success" <;>
    simp [hs, updateLast_append, newTaskRec, teMarkRunning, teMarkSuccess, teMarkFailure,
      finishedTaskRec]

theorem loop_finalize_no_conditions (reg : Registry) (flow : Flow) (fuel : Nat)
    (current : String) (seq : Nat) (ctx : Context) (st : EngineState)
    (r : TaskResult) (ctx2 : Context) (st2 : EngineState)
    (hne : current ≠ "end")
    (hc : flow.get_conditions_for_task current = [])
    (hx : execute_task noFault reg flow current ctx seq st = (.ok (r, ctx2), st2)) :
    execute_flow_loop noFault reg flow (fuel + 1) current seq ctx st =
      (.ok .finished,
       advTick (if r.status = some "failure" then
           feMarkFailed (advTick (feSetTotal st2 seq)) (r.error.getD "Task failed")
             (some current)
         else feMarkCompleted (advTick (feSetTotal st2 seq)) ctx2)) := by
  unfold execute_flow_loop
  rw [if_neg hne, hx, hc]
  rfl

theorem execute_task_flow_congr (env : Env) (reg : Registry) (f g : Flow)
    (h : ∀ n, f.get_task_by_name n = g.get_task_by_name n)
    (task_name : String) (ctx : Context) (seq : Nat) (st : EngineState) :
    execute_task env reg f task_name ctx seq st =
      execute_task env reg g task_name ctx seq st := by
  unfold execute_task
  rw [h task_name]

theorem execute_flow_loop_head_congr (env : Env) (reg : Registry) (f g : Flow)
    (htask : ∀ n, f.get_task_by_name n = g.get_task_by_name n)
    (hcond : ∀ n, (f.get_conditions_for_task n).head? = (g.get_conditions_for_task n).head?) :
    ∀ (fuel : Nat) (current : String) (seq : Nat) (ctx : Context) (st : EngineState),
      execute_flow_loop env reg f fuel current seq ctx st =
        execute_flow_loop env reg g fuel current seq ctx st := by
  intro fuel
  induction fuel with
  | zero => intro current seq ctx st; rfl
  | succ n ih =>
    intro current seq ctx st
    unfold execute_flow_loop
    by_cases he : current = "end"
    · rw [if_pos he, if_pos he]
    · rw [if_neg he, if_neg he,
        execute_task_flow_congr env reg f g htask current ctx seq st, hcond current]
      simp only [ih]

theorem execute_task_nf_preserves (reg : Registry) (flow : Flow) (task_name : String)
    (ctx : Context) (seq : Nat) (st : EngineState) :
    ∃ (r : TaskResult) (ctx2 : Context) (st2 : EngineState),
      execute_task noFault reg flow task_name ctx seq st = (.ok (r, ctx2), st2) ∧
      st2.fe = st.fe ∧ st2.trace = st.trace := by
  cases htd : flow.get_task_by_name task_name with
  | none =>
    exact ⟨_, _, _, execute_task_no_taskdef noFault reg flow task_name ctx seq st htd,
      rfl, rfl⟩
  | some td =>
    cases hcap : reg.get_task task_name with
    | none =>
      exact ⟨_, _, _,
        execute_task_no_capability noFault reg flow task_name ctx seq st td htd hcap,
        rfl, rfl⟩
    | some cap =>
      exact ⟨_, _, _,
        execute_task_nf_resolved reg flow task_name ctx seq st td cap htd hcap, rfl, rfl⟩

theorem loop_nf_trace_spec (reg : Registry) (flow : Flow) :
    ∀ (fuel : Nat) (current : String) (seq : Nat) (ctx : Context) (st : EngineState),
      ∃ (ex : LoopExit) (st2 : EngineState),
        execute_flow_loop noFault reg flow fuel current seq ctx st = (.ok ex, st2) ∧
        ((st2.trace = st.trace ∧ st2.fe.status = st.fe.status ∧
          st2.fe.completed_at_set = st.fe.completed_at_set) ∨
         (st2.trace = st.trace ++ [.completed] ∧ st2.fe.status = .completed ∧
          st2.fe.completed_at_set = true) ∨
         (st2.trace = st.trace ++ [.failure] ∧ st2.fe.status = .failure ∧
          st2.fe.completed_at_set = true)) := by
  intro fuel
  induction fuel with
  | zero =>
    intro current seq ctx st
    exact ⟨.fuelOut, st, rfl, Or.inl ⟨rfl, rfl, rfl⟩⟩
  | succ n ih =>
    intro current seq ctx st
    by_cases he : current = "end"
    · refine ⟨.finished, st, ?_, Or.inl ⟨rfl, rfl, rfl⟩⟩
      unfold execute_flow_loop
      rw [if_pos he]
    · obtain ⟨r, ctx2, st2, hx, hfe, htr⟩ :=
        execute_task_nf_preserves reg flow current ctx seq st
      unfold execute_flow_loop
      rw [if_neg he, hx]
      simp only [commit_noFault]
      cases hh : (flow.get_conditions_for_task current).head? with
      | none =>
        dsimp only
        by_cases hf : r.status = some "failure"
        · rw [if_pos hf]
          refine ⟨.finished, _, rfl, Or.inr (Or.inr ⟨?_, rfl, rfl⟩)⟩
          simp [advTick, feMarkFailed, feSetTotal, htr]
        · rw [if_neg hf]
          refine ⟨.finished, _, rfl, Or.inr (Or.inl ⟨?_, rfl, rfl⟩)⟩
          simp [advTick, feMarkCompleted, feSetTotal, htr]
      | some condition =>
        dsimp only
        by_cases hnext : ConditionEvaluator.evaluate condition r = "end"
        · rw [if_pos hnext]
          by_cases hf : r.status = some "failure"
          · rw [if_pos hf]
            refine ⟨.finished, _, rfl, Or.inr (Or.inr ⟨?_, rfl, rfl⟩)⟩
            simp [advTick, feMarkFailed, feSetTotal, htr]
          · rw [if_neg hf]
            refine ⟨.finished, _, rfl, Or.inr (Or.inl ⟨?_, rfl, rfl⟩)⟩
            simp [advTick, feMarkCompleted, feSetTotal, htr]
        · rw [if_neg hnext]
          obtain ⟨ex, st3, hrec, hspec⟩ :=
            ih (ConditionEvaluator.evaluate condition r) (seq + 1) ctx2
              (advTick (feSetTotal st2 seq))
          refine ⟨ex, st3, hrec, ?_⟩
          have htr2 : (advTick (feSetTotal st2 seq)).trace = st.trace := by
            simp [advTick, feSetTotal, htr]
          have hst2 : (advTick (feSetTotal st2 seq)).fe.status = st.fe.status := by
            simp [advTick, feSetTotal]
            rw [hfe]
          have hca2 : (advTick (feSetTotal st2 seq)).fe.completed_at_set =
              st.fe.completed_at_set := by
            simp [advTick, feSetTotal]
            rw [hfe]
          rcases hspec with h | h | h
          · exact Or.inl ⟨by rw [h.1, htr2], by rw [h.2.1, hst2], by rw [h.2.2, hca2]⟩
          · exact Or.inr (Or.inl ⟨by rw [h.1, htr2], h.2.1, h.2.2⟩)
          · exact Or.inr (Or.inr ⟨by rw [h.1, htr2], h.2.1, h.2.2⟩)

theorem vfs_fst_eq (f : Flow) :
    (f.validate_flow_structure).1 = (f.validate_flow_structure).2.isEmpty := by
  unfold Flow.validate_flow_structure
  split
  · rfl
  · split
    · rfl
    · split
      · rfl
      · rfl

theorem conds_struct_errors_eq_nil (names : List String) :
    ∀ (conds : List Condition), conds_struct_errors names conds = [] →
      ∀ c ∈ conds, cond_struct_errors names c = [] := by
  intro conds
  induction conds with
  | nil => intro _ c hc; cases hc
  | cons a rest ih =>
    intro h c hc
    rw [show conds_struct_errors names (a :: rest) =
      cond_struct_errors names a ++ conds_struct_errors names rest from rfl] at h
    rcases List.append_eq_nil.mp h with ⟨h1, h2⟩
    rcases List.mem_cons.mp hc with hceq | hcm
    · subst hceq
      exact h1
    · exact ih h2 c hcm

theorem cond_struct_errors_nil_facts (names : List String) (c : Condition)
    (h : cond_struct_errors names c = []) :
    (∀ s, c.source_task = some s → s ≠ "" → s ∈ names) ∧
    (∀ s, c.target_task_success = some s → s ≠ "" → s = "end" ∨ s ∈ names) ∧
    (∀ s, c.target_task_failure = some s → s ≠ "" → s = "end" ∨ s ∈ names) := by
  unfold cond_struct_errors at h
  rcases List.append_eq_nil.mp h with ⟨h12, h3⟩
  rcases List.append_eq_nil.mp h12 with ⟨h1, h2⟩
  refine ⟨fun s hs hne => ?_, fun s hs hne => ?_, fun s hs hne => ?_⟩
  · rw [hs] at h1
    dsimp only at h1
    by_contra hmem
    rw [if_pos ⟨hne, hmem⟩] at h1
    exact List.noConfusion h1
  · rw [hs] at h2
    dsimp only at h2
    by_contra hmem
    push_neg at hmem
    rw [if_pos ⟨hne, hmem.1, hmem.2⟩] at h2
    exact List.noConfusion h2
  · rw [hs] at h3
    dsimp only at h3
    by_contra hmem
    push_neg at hmem
    rw [if_pos ⟨hne, hmem.1, hmem.2⟩] at h3
    exact List.noConfusion h3

theorem validate_structure_true_facts (f : Flow)
    (h : (f.validate_flow_structure).1 = true) :
    (∃ d tasks, f.definition = some d ∧ d.tasks = some tasks ∧ tasks ≠ []) ∧
    f.start_task ∈ f.get_all_task_names ∧
    f.get_all_task_names.Nodup ∧
    ∀ c ∈ f.conditions_list, cond_struct_errors f.get_all_task_names c = [] := by
  obtain ⟨fid, fstart, fdef⟩ := f
  cases fdef with
  | none => simp [Flow.validate_flow_structure] at h
  | some d =>
    obtain ⟨dtasks, dconds⟩ := d
    cases dtasks with
    | none => simp [Flow.validate_flow_structure] at h
    | some tasks =>
      by_cases hemp : tasks.isEmpty
      · simp [Flow.validate_flow_structure, hemp] at h
      · simp only [Flow.validate_flow_structure] at h
        rw [if_neg hemp] at h
        simp only [List.isEmpty_eq_true, List.append_eq_nil] at h
        obtain ⟨⟨hstart, hnodup⟩, hconds⟩ := h
        refine ⟨⟨⟨some tasks, dconds⟩, tasks, rfl, rfl, ?_⟩, ?_, ?_, ?_⟩
        · intro hnil
          exact hemp (by simp [hnil])
        · by_contra hs
          rw [if_neg hs] at hstart
          exact List.noConfusion hstart
        · by_contra hs
          rw [if_neg hs] at hnodup
          exact List.noConfusion hnodup
        · intro c hc
          cases dconds with
          | none => simp [Flow.conditions_list] at hc
          | some conds =>
            dsimp only at hconds
            simp only [Flow.conditions_list, Option.getD_some] at hc
            exact conds_struct_errors_eq_nil _ conds hconds c hc

theorem seqList_length (n : Nat) : (seqList n).length = n := by
  induction n with
  | zero => rfl
  | succ m ih => simp [seqList, ih]

theorem mem_names_taskdef (flow : Flow) (n : String)
    (h : n ∈ flow.get_all_task_names) :
    ∃ td, flow.get_task_by_name n = some td := by
  obtain ⟨fid, fstart, fdef⟩ := flow
  cases fdef with
  | none => simp [Flow.get_all_task_names] at h
  | some d =>
    obtain ⟨dtasks, dconds⟩ := d
    cases dtasks with
    | none => simp [Flow.get_all_task_names] at h
    | some ts =>
      simp only [Flow.get_all_task_names, Option.getD_some, List.mem_filterMap] at h
      obtain ⟨t, ht, htr⟩ := h
      have hname : t.name = some n := by
        cases hn : t.name with
        | none => rw [hn] at htr; exact Option.noConfusion htr
        | some s =>
          rw [hn] at htr
          simp only [truthyStr] at htr
          by_cases hs : s = ""
          · rw [if_pos hs] at htr
            exact Option.noConfusion htr
          · rw [if_neg hs] at htr
            rw [Option.some.injEq] at htr
            rw [htr]
      have hfind : (ts.find? (fun t => t.name == some n)).isSome = true := by
        rw [List.find?_isSome]
        exact ⟨t, ht, by simp [hname]⟩
      obtain ⟨td, htd⟩ := Option.isSome_iff_exists.mp hfind
      exact ⟨td, by simp [Flow.get_task_by_name, htd]⟩

theorem task_exists_cap (reg : Registry) (n : String)
    (h : reg.task_exists n = true) :
    ∃ cap, reg.get_task n = some cap := by
  unfold Registry.task_exists at h
  rw [List.any_eq_true] at h
  obtain ⟨p, hp, hpn⟩ := h
  have hfind : (reg.find? (fun p => p.1 == n)).isSome = true := by
    rw [List.find?_isSome]
    exact ⟨p, hp, hpn⟩
  obtain ⟨q, hq⟩ := Option.isSome_iff_exists.mp hfind
  exact ⟨q.2, by simp [Registry.get_task, hq]⟩

theorem evaluate_target_cases (c : Condition) (r : TaskResult) :
    ConditionEvaluator.evaluate c r = c.target_task_success.getD "end" ∨
    ConditionEvaluator.evaluate c r = c.target_task_failure.getD "end" := by
  unfold ConditionEvaluator.evaluate
  by_cases h : ConditionEvaluator.outcome_matches (c.outcome.getD "success")
      (r.status.getD "failure") = true
  · left
    simp [h]
  · right
    simp [h]

theorem registry_missing_errors_eq_nil (reg : Registry) :
    ∀ (l : List String), registry_missing_errors reg l = [] →
      ∀ n ∈ l, reg.task_exists n = true := by
  intro l
  induction l with
  | nil => intro _ n hn; cases hn
  | cons a rest ih =>
    intro h n hn
    rw [show registry_missing_errors reg (a :: rest) =
      (if reg.task_exists a then [] else ["Task " ++ a ++ " not found in task registry"]) ++
        registry_missing_errors reg rest from rfl] at h
    rcases List.append_eq_nil.mp h with ⟨h1, h2⟩
    rcases List.mem_cons.mp hn with hceq | hcm
    · subst hceq
      by_cases ha : reg.task_exists n = true
      · exact ha
      · rw [if_neg ha] at h1
        exact List.noConfusion h1
    · exact ih h2 n hcm

theorem executable_facts (reg : Registry) (flow : Flow)
    (hv : (validate_flow_executable reg flow).1 = true)
    (hpres : ∀ c ∈ flow.conditions_list, conditionFieldsPresent c) :
    flow.start_task ∈ flow.get_all_task_names ∧
    (∀ n ∈ flow.get_all_task_names, reg.task_exists n = true) ∧
    (∀ c ∈ flow.conditions_list,
      (∃ s, c.target_task_success = some s ∧ s ≠ "" ∧
        (s = "end" ∨ s ∈ flow.get_all_task_names)) ∧
      (∃ s, c.target_task_failure = some s ∧ s ≠ "" ∧
        (s = "end" ∨ s ∈ flow.get_all_task_names))) := by
  have hparts : (if (flow.validate_flow_structure).1 then []
      else (flow.validate_flow_structure).2) = ([] : List String) ∧
      registry_missing_errors reg flow.get_all_task_names = [] := by
    simp only [validate_flow_executable, List.isEmpty_eq_true, List.append_eq_nil] at hv
    exact hv
  have hsv : (flow.validate_flow_structure).1 = true := by
    by_cases hb : (flow.validate_flow_structure).1 = true
    · exact hb
    · exfalso
      have hb2 : (flow.validate_flow_structure).1 = false := by
        cases hx : (flow.validate_flow_structure).1
        · rfl
        · exact absurd hx hb
      have h2 := hparts.1
      rw [hb2] at h2
      simp at h2
      have hfe := vfs_fst_eq flow
      rw [hb2, h2] at hfe
      exact Bool.noConfusion hfe
  obtain ⟨_, hstart, _, hconds⟩ := validate_structure_true_facts flow hsv
  refine ⟨hstart, registry_missing_errors_eq_nil reg _ hparts.2, fun c hc => ?_⟩
  obtain ⟨_, hts, htf⟩ := cond_struct_errors_nil_facts _ c (hconds c hc)
  obtain ⟨_, ⟨s1, hs1, hs1ne⟩, ⟨s2, hs2, hs2ne⟩⟩ := hpres c hc
  exact ⟨⟨s1, hs1, hs1ne, hts s1 hs1 hs1ne⟩, ⟨s2, hs2, hs2ne, htf s2 hs2 hs2ne⟩⟩

theorem loop_nf_seq_spec (reg : Registry) (flow : Flow)
    (hreg : ∀ n ∈ flow.get_all_task_names, reg.task_exists n = true)
    (htargets : ∀ c ∈ flow.conditions_list,
      (∃ s, c.target_task_success = some s ∧ s ≠ "" ∧
        (s = "end" ∨ s ∈ flow.get_all_task_names)) ∧
      (∃ s, c.target_task_failure = some s ∧ s ≠ "" ∧
        (s = "end" ∨ s ∈ flow.get_all_task_names))) :
    ∀ (fuel : Nat) (current : String) (k : Nat) (ctx : Context) (st : EngineState),
      (current = "end" ∨ current ∈ flow.get_all_task_names) →
      st.task_recs.map (fun r => r.sequence_number) = seqList k →
      ∃ ex st2,
        execute_flow_loop noFault reg flow fuel current (k + 1) ctx st = (.ok ex, st2) ∧
        ∃ m, st2.task_recs.map (fun r => r.sequence_number) = seqList m := by
  intro fuel
  induction fuel with
  | zero =>
    intro current k ctx st _ hinv
    exact ⟨.fuelOut, st, rfl, k, hinv⟩
  | succ n ih =>
    intro current k ctx st hcur hinv
    by_cases he : current = "end"
    · refine ⟨.finished, st, ?_, k, hinv⟩
      unfold execute_flow_loop
      rw [if_pos he]
    · have hmem : current ∈ flow.get_all_task_names := hcur.resolve_left he
      obtain ⟨td, htd⟩ := mem_names_taskdef flow current hmem
      obtain ⟨cap, hcap⟩ := task_exists_cap reg current (hreg current hmem)
      have hx := execute_task_nf_resolved reg flow current ctx (k + 1) st td cap htd hcap
      have hrecnum : (finishedTaskRec current (k + 1) td ctx (cap.run ctx)).sequence_number
          = k + 1 := by
        unfold finishedTaskRec
        split <;> rfl
      unfold execute_flow_loop
      rw [if_neg he, hx]
      simp only [commit_noFault]
      cases hh : (flow.get_conditions_for_task current).head? with
      | none =>
        dsimp only
        by_cases hf : (cap.run ctx).status = some "failure"
        · rw [if_pos hf]
          exact ⟨.finished, _, rfl, k + 1,
            by simp [advTick, feMarkFailed, feSetTotal, hinv, hrecnum, seqList]⟩
        · rw [if_neg hf]
          exact ⟨.finished, _, rfl, k + 1,
            by simp [advTick, feMarkCompleted, feSetTotal, hinv, hrecnum, seqList]⟩
      | some condition =>
        dsimp only
        have hcmem : condition ∈ flow.conditions_list := by
          have h1 : condition ∈ flow.get_conditions_for_task current := by
            cases hl : flow.get_conditions_for_task current with
            | nil =>
              rw [hl] at hh
              exact Option.noConfusion hh
            | cons a t =>
              rw [hl] at hh
              rw [show (a :: t).head? = some a from rfl, Option.some.injEq] at hh
              rw [← hh]
              exact List.mem_cons_self a t
          exact List.mem_of_mem_filter h1
        have hnextok : ConditionEvaluator.evaluate condition (cap.run ctx) = "end" ∨
            ConditionEvaluator.evaluate condition (cap.run ctx) ∈
              flow.get_all_task_names := by
          obtain ⟨⟨s1, hs1, _, hs1ok⟩, ⟨s2, hs2, _, hs2ok⟩⟩ := htargets condition hcmem
          rcases evaluate_target_cases condition (cap.run ctx) with hev | hev
          · rw [hev, hs1, Option.getD_some]
            exact hs1ok
          · rw [hev, hs2, Option.getD_some]
            exact hs2ok
        by_cases hnext : ConditionEvaluator.evaluate condition (cap.run ctx) = "end"
        · rw [if_pos hnext]
          by_cases hf : (cap.run ctx).status = some "failure"
          · rw [if_pos hf]
            exact ⟨.finished, _, rfl, k + 1,
              by simp [advTick, feMarkFailed, feSetTotal, hinv, hrecnum, seqList]⟩
          · rw [if_neg hf]
            exact ⟨.finished, _, rfl, k + 1,
              by simp [advTick, feMarkCompleted, feSetTotal, hinv, hrecnum, seqList]⟩
        · rw [if_neg hnext]
          exact ih (ConditionEvaluator.evaluate condition (cap.run ctx)) (k + 1)
            (ctxSet ctx current (cap.run ctx)) _
            (Or.inr (hnextok.resolve_left hnext))
            (by simp [advTick, feSetTotal, hinv, hrecnum, seqList])

/-! ## Claim theorems -/

/-- C2: for every condition and task result whose routing fields are
present, `evaluate` returns the condition's `target_task_success` exactly
when the outcome is `any` or equals the result's status, and
`target_task_failure` otherwise; in particular outcome `any` always routes
to `target_task_success`. -/
theorem evaluate_routes_on_outcome_match (c : Condition) (r : TaskResult)
    (oc s ts tf : String) (hoc : c.outcome = some oc)
    (hts : c.target_task_success = some ts) (htf : c.target_task_failure = some tf)
    (hs : r.status = some s) :
    ConditionEvaluator.evaluate c r = (if oc = "any" ∨ oc = s then ts else tf) ∧
    (oc = "any" → ConditionEvaluator.evaluate c r = ts) := by
  have key : ConditionEvaluator.evaluate c r = if oc = "any" ∨ oc = s then ts else tf := by
    unfold ConditionEvaluator.evaluate ConditionEvaluator.outcome_matches
    rw [hoc, hts, htf, hs]
    by_cases h1 : oc = "any" <;> by_cases h2 : oc = s <;> simp [h1, h2]
  refine ⟨key, fun h1 => ?_⟩
  rw [key]
  simp [h1]

/-- Witness for C2 at a closed condition and result: outcome `any` routes a
failed result to `target_task_success`, and outcome `success` routes a
failed result to `target_task_failure`. -/
theorem evaluate_routes_on_outcome_match_witness :
    ConditionEvaluator.evaluate
      { source_task := some "a", outcome := some "any",
        target_task_success := some "t1", target_task_failure := some "t2" }
      { status := some "failure", data := none, error := none } = "t1" ∧
    ConditionEvaluator.evaluate
      { source_task := some "a", outcome := some "success",
        target_task_success := some "t1", target_task_failure := some "t2" }
      { status := some "failure", data := none, error := none } = "t2" := by
  constructor
  · exact (evaluate_routes_on_outcome_match _ _ "any" "failure" "t1" "t2"
      rfl rfl rfl rfl).2 rfl
  · have h := (evaluate_routes_on_outcome_match
      { source_task := some "a", outcome := some "success",
        target_task_success := some "t1", target_task_failure := some "t2" }
      { status := some "failure", data := none, error := none }
      "success" "failure" "t1" "t2" rfl rfl rfl rfl).1
    rw [h]
    decide

/-- C4: the capability wrapper `run` never lets a fault propagate — its
output always has a `status` key, a fault raised inside `execute` becomes a
`failure` result carrying the fault's message, and a returned result
missing its `status` key is given status `success`. -/
theorem run_isolates_faults (t : Capability) (ctx : Context) :
    ((t.run ctx).status.isSome = true) ∧
    (∀ msg, t.execute ctx = .raised msg →
      t.run ctx = { status := some "failure", data := none, error := some msg }) ∧
    (∀ r, t.execute ctx = .ret r → r.status = none →
      t.run ctx = { r with status := some "success" }) := by
  refine ⟨?_, fun msg hm => ?_, fun r hr hst => ?_⟩
  · unfold Capability.run
    cases h : t.execute ctx with
    | raised msg => simp
    | ret r =>
      cases hst : r.status with
      | none => simp [hst]
      | some s => simp [hst]
  · unfold Capability.run
    rw [hm]
  · unfold Capability.run
    rw [hr]
    simp [hst]

/-- Witness for C4 at closed capabilities: a raised fault becomes a failure
result with the fault message, and a statusless result is defaulted to
success. -/
theorem run_isolates_faults_witness :
    wCapRaise.run [] = { status := some "failure", data := none, error := some "kaput" } ∧
    wCapNoStatus.run [] = { status := some "success", data := some "d", error := none } := by
  constructor
  · exact (run_isolates_faults wCapRaise []).2.1 "kaput" rfl
  · exact (run_isolates_faults wCapNoStatus []).2.2
      { status := none, data := some "d", error := none } rfl rfl

/-- C6: when the task name does not resolve to a task definition in the
flow, or resolves in the flow but not to a capability in the registry,
`_execute_task` returns a failure result carrying an error message and
leaves the store untouched — in particular no `TaskExecution` row is
created (this holds for every commit environment). -/
theorem execute_task_lookup_miss_no_record (env : Env) (reg : Registry) (flow : Flow)
    (task_name : String) (ctx : Context) (seq : Nat) (st : EngineState) :
    (flow.get_task_by_name task_name = none →
      execute_task env reg flow task_name ctx seq st =
        (.ok (taskNotFoundResult task_name, ctx), st) ∧
      (taskNotFoundResult task_name).status = some "failure" ∧
      (taskNotFoundResult task_name).error.isSome = true) ∧
    (∀ td, flow.get_task_by_name task_name = some td → reg.get_task task_name = none →
      execute_task env reg flow task_name ctx seq st =
        (.ok (registryNotFoundResult task_name, ctx), st) ∧
      (registryNotFoundResult task_name).status = some "failure" ∧
      (registryNotFoundResult task_name).error.isSome = true) := by
  refine ⟨fun h => ⟨?_, rfl, rfl⟩, fun td h h2 => ⟨?_, rfl, rfl⟩⟩
  · exact execute_task_no_taskdef env reg flow task_name ctx seq st h
  · exact execute_task_no_capability env reg flow task_name ctx seq st td h h2

/-- Witness for C6 at closed inputs: looking up the unknown task `z` in the
example flow returns the flow-definition failure result and an unchanged
store, and looking up task `a` of a flow whose registry is empty returns
the registry failure result and an unchanged store. -/
theorem execute_task_lookup_miss_no_record_witness :
    execute_task noFault wRegAB wFlowA "z" [] 1 (initState wFlowA none) =
      (.ok (taskNotFoundResult "z", []), initState wFlowA none) ∧
    execute_task noFault [] wFlowA "a" [] 1 (initState wFlowA none) =
      (.ok (registryNotFoundResult "a", []), initState wFlowA none) := by
  constructor
  · exact ((execute_task_lookup_miss_no_record noFault wRegAB wFlowA "z" [] 1
      (initState wFlowA none)).1 (by decide)).1
  · exact ((execute_task_lookup_miss_no_record noFault [] wFlowA "a" [] 1
      (initState wFlowA none)).2 { name := some "a", description := some "ta" }
      (by decide) rfl).1

/-- C1: when the current task has no condition whose `source_task` matches
it, the execution is finalized immediately — FAILURE with the result's
error and the current task name when the result status is `failure`,
otherwise COMPLETED with the accumulated context as output; in particular a
flow with no condition for its start task whose start task succeeds
terminates COMPLETED after exactly one `TaskExecution`. -/
theorem execute_flow_no_condition_finalizes :
    (∀ (reg : Registry) (flow : Flow) (fuel : Nat) (current : String) (seq : Nat)
       (ctx : Context) (st : EngineState) (r : TaskResult) (ctx2 : Context)
       (st2 : EngineState),
      current ≠ "end" →
      flow.get_conditions_for_task current = [] →
      execute_task noFault reg flow current ctx seq st = (.ok (r, ctx2), st2) →
      execute_flow_loop noFault reg flow (fuel + 1) current seq ctx st =
        (.ok .finished,
         advTick (if r.status = some "failure" then
             feMarkFailed (advTick (feSetTotal st2 seq)) (r.error.getD "Task failed")
               (some current)
           else feMarkCompleted (advTick (feSetTotal st2 seq)) ctx2))) ∧
    (∀ (reg : Registry) (flow : Flow) (ictx : Option Context) (fuel : Nat)
       (td : TaskDef) (cap : Capability),
      flow.get_conditions_for_task flow.start_task = [] →
      flow.start_task ≠ "end" →
      flow.get_task_by_name flow.start_task = some td →
      reg.get_task flow.start_task = some cap →
      (cap.run (ictx.getD [])).status = some "success" →
      (execute_flow_nf reg flow ictx (fuel + 1)).1 = .ok .finished ∧
      (execute_flow_nf reg flow ictx (fuel + 1)).2.fe.status = .completed ∧
      (execute_flow_nf reg flow ictx (fuel + 1)).2.fe.completed_at_set = true ∧
      (execute_flow_nf reg flow ictx (fuel + 1)).2.task_recs.length = 1 ∧
      (execute_flow_nf reg flow ictx (fuel + 1)).2.fe.output_data =
        some (ctxSet (ictx.getD []) flow.start_task (cap.run (ictx.getD [])))) := by
  constructor
  · exact loop_finalize_no_conditions
  · intro reg flow ictx fuel td cap hc hne htd hcap hs
    have hx := execute_task_nf_resolved reg flow flow.start_task (ictx.getD []) 1
        (advTick (feMarkRunning (advTick (initState flow ictx)))) td cap htd hcap
    have hloop := loop_finalize_no_conditions reg flow fuel flow.start_task 1 (ictx.getD [])
        (advTick (feMarkRunning (advTick (initState flow ictx)))) _ _ _ hne hc hx
    have hif : ¬ (cap.run (ictx.getD [])).status = some "failure" := by
      rw [hs]
      simp
    rw [if_neg hif] at hloop
    unfold execute_flow_nf execute_flow execute_flow_try
    simp only [commit_noFault]
    rw [hloop]
    exact ⟨rfl, rfl, rfl, rfl, rfl⟩

/-- Witness for C1: concrete instances of both conjuncts — the loop-level
finalize behavior at a closed state, and the single-task COMPLETED run of
the condition-free flow under a succeeding capability. -/
theorem execute_flow_no_condition_finalizes_witness :
    (execute_flow_nf wRegAB wFlowNoCond none 5).1 = .ok .finished ∧
    (execute_flow_nf wRegAB wFlowNoCond none 5).2.fe.status = .completed ∧
    (execute_flow_nf wRegAB wFlowNoCond none 5).2.fe.completed_at_set = true ∧
    (execute_flow_nf wRegAB wFlowNoCond none 5).2.task_recs.length = 1 ∧
    (execute_flow_nf wRegAB wFlowNoCond none 5).2.fe.output_data =
      some (ctxSet [] "a" ((wCapOk "a").run [])) :=
  execute_flow_no_condition_finalizes.2 wRegAB wFlowNoCond none 4
    { name := some "a", description := none } (wCapOk "a")
    (by decide) (by decide) (by decide) rfl rfl

/-- C3 counterexample: `wFlowGap` passes the executability check, yet the
engine writes `TaskExecution` rows with sequence numbers `[1, 3]` — the
empty-string routing step resolves no task, writes no row, and still
consumes a sequence number, so the written numbers are not the gapless run
`1..N`. -/
theorem sequence_gap_counterexample :
    (validate_flow_executable wRegAB wFlowGap).1 = true ∧
    (execute_flow_nf wRegAB wFlowGap none 10).1 = .ok .finished ∧
    (execute_flow_nf wRegAB wFlowGap none 10).2.task_recs.map
      (fun r => r.sequence_number) = [1, 3] ∧
    ¬ ((execute_flow_nf wRegAB wFlowGap none 10).2.task_recs.map
        (fun r => r.sequence_number) =
      seqList (execute_flow_nf wRegAB wFlowGap none 10).2.task_recs.length) := by
  refine ⟨by decide, by decide, by decide, by decide⟩

/-- C3 (amended): when every task the run reaches resolves — guaranteed
when the flow passes the executability check and all its conditions carry
present, non-empty routing fields, the shape the creation schema enforces —
the sequence numbers of the `TaskExecution` rows written for one
`FlowExecution` form exactly the gapless, repeat-free run `1..N`; a step
whose lookup fails writes no row and later rows may leave a gap. -/
theorem sequence_numbers_gapless_of_executable (reg : Registry) (flow : Flow)
    (ictx : Option Context) (fuel : Nat)
    (hv : (validate_flow_executable reg flow).1 = true)
    (hpres : ∀ c ∈ flow.conditions_list, conditionFieldsPresent c) :
    ∃ ex st, execute_flow_nf reg flow ictx fuel = (.ok ex, st) ∧
      st.task_recs.map (fun r => r.sequence_number) = seqList st.task_recs.length := by
  obtain ⟨hstart, hreg, htargets⟩ := executable_facts reg flow hv hpres
  obtain ⟨ex, st2, hrec, m, hmap⟩ := loop_nf_seq_spec reg flow hreg htargets fuel
    flow.start_task 0 (ictx.getD [])
    (advTick (feMarkRunning (advTick (initState flow ictx))))
    (Or.inr hstart) rfl
  simp only [Nat.zero_add] at hrec
  have key : execute_flow_nf reg flow ictx fuel = (.ok ex, st2) := by
    unfold execute_flow_nf execute_flow execute_flow_try
    simp only [commit_noFault]
    rw [hrec]
  have hlen : st2.task_recs.length = m := by
    have hml := congrArg List.length hmap
    rw [List.length_map, seqList_length] at hml
    exact hml
  refine ⟨ex, st2, key, ?_⟩
  rw [hmap, hlen]

/-- Witness for C3 (amended): the example flow (two tasks, one fully
specified condition, full registry) yields sequence numbers `1..N`. -/
theorem sequence_numbers_gapless_of_executable_witness :
    (execute_flow_nf wRegAB wFlowA none 10).2.task_recs.map
      (fun r => r.sequence_number) =
      seqList (execute_flow_nf wRegAB wFlowA none 10).2.task_recs.length := by
  have hp : ∀ c ∈ wFlowA.conditions_list, conditionFieldsPresent c := by
    intro c hc
    simp only [wFlowA, Flow.conditions_list, Option.getD_some, List.mem_singleton] at hc
    subst hc
    exact ⟨⟨"a", rfl, by decide⟩, ⟨"b", rfl, by decide⟩, ⟨"end", rfl, by decide⟩⟩
  obtain ⟨ex, st, heq, hmap⟩ :=
    sequence_numbers_gapless_of_executable wRegAB wFlowA none 10 (by decide) hp
  rw [heq]
  exact hmap

/-- C5: under the reliable store, every run of the engine returns normally
and its `FlowExecution` satisfies the lifecycle invariant — `completed_at`
is set exactly when the status is terminal (COMPLETED or FAILURE), and the
status history is PENDING, RUNNING, followed by at most one terminal
status, which is then final. -/
theorem flow_execution_lifecycle_invariant (reg : Registry) (flow : Flow)
    (ictx : Option Context) (fuel : Nat) :
    ∃ (ex : LoopExit) (st : EngineState),
      execute_flow_nf reg flow ictx fuel = (.ok ex, st) ∧
      (st.fe.completed_at_set = true ↔
        (st.fe.status = .completed ∨ st.fe.status = .failure)) ∧
      ((st.trace = [.pending, .running] ∧ st.fe.status = .running) ∨
       (st.trace = [.pending, .running, .completed] ∧ st.fe.status = .completed) ∨
       (st.trace = [.pending, .running, .failure] ∧ st.fe.status = .failure)) := by
  obtain ⟨ex, st2, hrec, hspec⟩ := loop_nf_trace_spec reg flow fuel flow.start_task 1
    (ictx.getD []) (advTick (feMarkRunning (advTick (initState flow ictx))))
  have key : execute_flow_nf reg flow ictx fuel = (.ok ex, st2) := by
    unfold execute_flow_nf execute_flow execute_flow_try
    simp only [commit_noFault]
    rw [hrec]
  refine ⟨ex, st2, key, ?_, ?_⟩
  · rcases hspec with h | h | h
    · rw [h.2.1, h.2.2]
      simp [advTick, feMarkRunning, initState, initFlowExecution]
    · rw [h.2.1, h.2.2]
      simp
    · rw [h.2.1, h.2.2]
      simp
  · rcases hspec with h | h | h
    · exact Or.inl ⟨by rw [h.1]; rfl, by rw [h.2.1]; rfl⟩
    · exact Or.inr (Or.inl ⟨by rw [h.1]; rfl, h.2.1⟩)
    · exact Or.inr (Or.inr ⟨by rw [h.1]; rfl, h.2.1⟩)

/-- C7 counterexample: the flow `wFlowVacCond` — one task `a`, one
condition with every field absent — passes structural validation although
its condition's `source_task`, `target_task_success` and
`target_task_failure` are not `end` and not an existing task name (they are
absent): validation checks each routing field only when it is truthy. -/
theorem validate_structure_vacuous_condition_counterexample :
    (wFlowVacCond.validate_flow_structure).1 = true ∧
    ¬ (∀ c ∈ wFlowVacCond.conditions_list,
        (∃ s, c.source_task = some s ∧
          (s = "end" ∨ s ∈ wFlowVacCond.get_all_task_names)) ∧
        (∃ s, c.target_task_success = some s ∧
          (s = "end" ∨ s ∈ wFlowVacCond.get_all_task_names)) ∧
        (∃ s, c.target_task_failure = some s ∧
          (s = "end" ∨ s ∈ wFlowVacCond.get_all_task_names))) := by
  constructor
  · decide
  · intro hall
    obtain ⟨⟨s, hs, _⟩, _⟩ := hall
      { source_task := none, outcome := none, target_task_success := none,
        target_task_failure := none } (by decide)
    exact Option.noConfusion hs

/-- C7 (amended): structural validation succeeds only when the flow has at
least one task, its start task is among the task names, task names are
unique, and every condition's present and non-empty `source_task` names an
existing task while every present and non-empty target is `end` or an
existing task name (absent or empty fields are skipped by the source's
truthiness guards); and a flow whose start task is absent from its task
list fails structural validation and is never persisted by flow
creation. -/
theorem validate_structure_only_when_wellformed :
    (∀ (f : Flow), (f.validate_flow_structure).1 = true →
      (∃ d tasks, f.definition = some d ∧ d.tasks = some tasks ∧ tasks ≠ []) ∧
      f.start_task ∈ f.get_all_task_names ∧
      f.get_all_task_names.Nodup ∧
      (∀ c ∈ f.conditions_list,
        (∀ s, c.source_task = some s → s ≠ "" → s ∈ f.get_all_task_names) ∧
        (∀ s, c.target_task_success = some s → s ≠ "" →
          s = "end" ∨ s ∈ f.get_all_task_names) ∧
        (∀ s, c.target_task_failure = some s → s ≠ "" →
          s = "end" ∨ s ∈ f.get_all_task_names))) ∧
    (∀ (f : Flow) (ids : List String) (reg : Registry),
      f.start_task ∉ f.get_all_task_names →
      (f.validate_flow_structure).1 = false ∧ create_flow ids reg f ≠ .persisted) := by
  constructor
  · intro f h
    obtain ⟨hdef, hstart, hnodup, hconds⟩ := validate_structure_true_facts f h
    exact ⟨hdef, hstart, hnodup,
      fun c hc => cond_struct_errors_nil_facts _ c (hconds c hc)⟩
  · intro f ids reg hstart
    have h1 : (f.validate_flow_structure).1 = false := by
      cases hb : (f.validate_flow_structure).1 with
      | false => rfl
      | true => exact absurd (validate_structure_true_facts f hb).2.1 hstart
    refine ⟨h1, ?_⟩
    intro hp
    have hv : (validate_flow_executable reg f).1 = false := by
      have hne : (f.validate_flow_structure).2 ≠ [] := by
        intro hnil
        have hfe := vfs_fst_eq f
        rw [h1, hnil] at hfe
        exact Bool.noConfusion hfe
      simp [validate_flow_executable, h1, List.isEmpty_eq_true, List.append_eq_nil, hne]
    simp only [create_flow] at hp
    by_cases hid : f.id ∈ ids
    · rw [if_pos hid] at hp
      exact CreateOutcome.noConfusion hp
    · rw [if_neg hid, hv] at hp
      simp at hp

/-- Witness for C7 (amended): the valid example flow yields the start-task
fact, and the bad-start flow fails validation and is not persisted. -/
theorem validate_structure_only_when_wellformed_witness :
    wFlowA.start_task ∈ wFlowA.get_all_task_names ∧
    (wFlowBadStart.validate_flow_structure).1 = false ∧
    create_flow [] wRegAB wFlowBadStart ≠ .persisted := by
  refine ⟨(validate_structure_only_when_wellformed.1 wFlowA (by decide)).2.1, ?_, ?_⟩
  · exact (validate_structure_only_when_wellformed.2 wFlowBadStart [] wRegAB (by decide)).1
  · exact (validate_structure_only_when_wellformed.2 wFlowBadStart [] wRegAB (by decide)).2

/-- C9: `find_condition_for_task` returns the first condition in
declaration order whose `source_task` equals the task name (the head of the
matching-condition list), and the engine consults only that head — two
flows with the same task lookups whose per-task matching-condition lists
agree on their first element drive the orchestration loop identically, so
all later conditions for a source task are ignored. -/
theorem first_condition_only_routing :
    (∀ (task_name : String) (conds : List Condition),
      ConditionEvaluator.find_condition_for_task task_name conds =
        (conds.filter (fun c => c.source_task == some task_name)).head?) ∧
    (∀ (env : Env) (reg : Registry) (f g : Flow),
      (∀ n, f.get_task_by_name n = g.get_task_by_name n) →
      (∀ n, (f.get_conditions_for_task n).head? = (g.get_conditions_for_task n).head?) →
      ∀ (fuel : Nat) (current : String) (seq : Nat) (ctx : Context) (st : EngineState),
        execute_flow_loop env reg f fuel current seq ctx st =
          execute_flow_loop env reg g fuel current seq ctx st) := by
  constructor
  · intro task_name conds
    induction conds with
    | nil => rfl
    | cons c rest ih =>
      by_cases h : (c.source_task == some task_name) = true
      · simp [ConditionEvaluator.find_condition_for_task, List.filter, h]
      · simp only [Bool.not_eq_true] at h
        simp [ConditionEvaluator.find_condition_for_task, List.filter, h, ih]
  · exact execute_flow_loop_head_congr

/-- Witness for C9: the duplicate-source flow `wFlowDup` and its truncation
to first conditions drive the loop identically from a closed state, and
`find_condition_for_task` picks the first of the two conditions for `a`. -/
theorem first_condition_only_routing_witness :
    ConditionEvaluator.find_condition_for_task "a" wFlowDup.conditions_list =
      (wFlowDup.conditions_list.filter (fun c => c.source_task == some "a")).head? ∧
    execute_flow_loop noFault wRegAB wFlowDup 5 "a" 1 []
        (advTick (feMarkRunning (advTick (initState wFlowDup none)))) =
      execute_flow_loop noFault wRegAB wFlowDupTrunc 5 "a" 1 []
        (advTick (feMarkRunning (advTick (initState wFlowDup none)))) := by
  constructor
  · exact first_condition_only_routing.1 "a" wFlowDup.conditions_list
  · refine first_condition_only_routing.2 noFault wRegAB wFlowDup wFlowDupTrunc
      (fun n => rfl) (fun n => ?_) 5 "a" 1 [] _
    simp only [Flow.get_conditions_for_task, Flow.conditions_list, wFlowDup, wFlowDupTrunc]
    by_cases h : ("a" : String) = n
    · subst h
      rfl
    · have hb : ((some "a" : Option String) == some n) = false := by
        simp [h]
      simp [List.filter, hb]

/-- C10: when the start task is the sentinel `end`, the loop body is never
entered and neither terminal marker is called — the returned
`FlowExecution` stays RUNNING with `completed_at` unset, zero tasks
executed, no `TaskExecution` rows, and a status history of exactly
pending, running. -/
theorem start_end_never_finalized (reg : Registry) (flow : Flow) (ictx : Option Context)
    (fuel : Nat) (h : flow.start_task = "end") :
    (execute_flow_nf reg flow ictx (fuel + 1)).1 = .ok .finished ∧
    (execute_flow_nf reg flow ictx (fuel + 1)).2.fe.status = .running ∧
    (execute_flow_nf reg flow ictx (fuel + 1)).2.fe.completed_at_set = false ∧
    (execute_flow_nf reg flow ictx (fuel + 1)).2.fe.total_tasks_executed = 0 ∧
    (execute_flow_nf reg flow ictx (fuel + 1)).2.task_recs = [] ∧
    (execute_flow_nf reg flow ictx (fuel + 1)).2.trace = [.pending, .running] := by
  have key : execute_flow_nf reg flow ictx (fuel + 1) =
      (.ok .finished, advTick (feMarkRunning (advTick (initState flow ictx)))) := by
    simp only [execute_flow_nf, execute_flow, execute_flow_try, h, commit_noFault,
      execute_flow_loop, if_true]
  rw [key]
  exact ⟨rfl, rfl, rfl, rfl, rfl, rfl⟩

/-- Witness for C10 at a closed flow whose start task is `end`. -/
theorem start_end_never_finalized_witness :
    (execute_flow_nf wRegAB wFlowEnd none 4).1 = .ok .finished ∧
    (execute_flow_nf wRegAB wFlowEnd none 4).2.fe.status = .running ∧
    (execute_flow_nf wRegAB wFlowEnd none 4).2.fe.completed_at_set = false ∧
    (execute_flow_nf wRegAB wFlowEnd none 4).2.fe.total_tasks_executed = 0 ∧
    (execute_flow_nf wRegAB wFlowEnd none 4).2.task_recs = [] ∧
    (execute_flow_nf wRegAB wFlowEnd none 4).2.trace = [.pending, .running] :=
  start_end_never_finalized wRegAB wFlowEnd none 3 rfl

/-- C8: a fault escaping the `try` block of `execute_flow` (not a fault
inside task logic, which `run` already downgrades) is caught: provided the
store accepts the creation commit and the recovery commit, `execute_flow`
returns normally — the fault is not re-raised — and the `FlowExecution` is
finalized FAILURE carrying the fault's message with no task attribution
and `completed_at` set. -/
theorem engine_fault_finalizes_failure (env : Env) (reg : Registry) (flow : Flow)
    (ictx : Option Context) (fuel : Nat) (msg : String) (st2 : EngineState)
    (h0 : env 0 = none)
    (hbody : execute_flow_try env reg flow ictx fuel (advTick (initState flow ictx)) =
      (.error msg, st2))
    (hrec : env st2.tick = none) :
    (execute_flow env reg flow ictx fuel).1 = .ok .finished ∧
    (execute_flow env reg flow ictx fuel).2.fe.status = .failure ∧
    (execute_flow env reg flow ictx fuel).2.fe.error_message = some msg ∧
    (execute_flow env reg flow ictx fuel).2.fe.error_task = none ∧
    (execute_flow env reg flow ictx fuel).2.fe.completed_at_set = true := by
  have hc1 : commit env (initState flow ictx) = (.ok (), advTick (initState flow ictx)) :=
    commit_ok env _ h0
  have hc2 : commit env (feMarkFailed st2 msg none) =
      (.ok (), advTick (feMarkFailed st2 msg none)) :=
    commit_ok env _ hrec
  have key : execute_flow env reg flow ictx fuel =
      (.ok .finished, advTick (feMarkFailed st2 msg none)) := by
    simp only [execute_flow, hc1, hbody, hc2]
  rw [key]
  exact ⟨rfl, rfl, rfl, rfl, rfl⟩

/-- Witness for C8: against a store that faults at the `mark_running`
commit with message `boom`, the execution returns normally and is
finalized FAILURE with message `boom` and no task attribution. -/
theorem engine_fault_finalizes_failure_witness :
    (execute_flow wEnvBoom [] wFlowNoCond none 3).1 = .ok .finished ∧
    (execute_flow wEnvBoom [] wFlowNoCond none 3).2.fe.status = .failure ∧
    (execute_flow wEnvBoom [] wFlowNoCond none 3).2.fe.error_message = some "boom" ∧
    (execute_flow wEnvBoom [] wFlowNoCond none 3).2.fe.error_task = none ∧
    (execute_flow wEnvBoom [] wFlowNoCond none 3).2.fe.completed_at_set = true :=
  engine_fault_finalizes_failure wEnvBoom [] wFlowNoCond none 3 "boom"
    { tick := 2,
      fe := { flow_id := "f2", status := .running, input_context := [],
              output_data := none, error_message := none, error_task := none,
              total_tasks_executed := 0, completed_at_set := false },
      task_recs := [], trace := [.pending, .running] }
    (by decide) (by decide) (by decide)

end FlowManager
